import Mathlib

/-!
Verification development for the jete editor core: a shallow embedding of
the revision-tracked text buffer (`src/text.rs`), the edit-session state
machine (`src/state.rs`), the frame scheduler (`bouncer/src/lib.rs`), the
pub/sub hub (`src/pubsub.rs`) and the highlighter pass (`src/highlight.rs`),
together with theorems settling the specified properties.

Modelling conventions:
* `u64`/`usize` counters (revisions, line ids, indices) are modelled as `Nat`;
  the editor can never get near overflow and none of the verified properties
  depend on wrap-around, so saturating arithmetic on `usize` is `Nat`
  subtraction/addition.
* Rust `assert!` statements are pure checks with no state effect; they are
  omitted from the embedding (the claims below never evaluate the code on
  inputs where an assertion would fire).
* Bus publishes (`notify_change` / `notify_text_change`) read the state and
  send a snapshot on the hub; they do not modify any `State` field and are
  modelled as identity. The hub itself is modelled separately for the
  pub/sub claims.
* Panics (`expect`) inside the backing-store write path are modelled with
  `Option`: `none` is a panic escaping the write.
-/

namespace Jete

/-- `Line` from `src/text.rs`: per-line identity, last-stamped revision and
content. `content_string` is kept in sync with `content` in the source
(`on_content_change`); here it is derived, so only `content` is stored. -/
structure Line where
  id : Nat
  rev : Nat
  content : List Char
  deriving Repr, DecidableEq

/-- `Text` from `src/text.rs`: global revision, next fresh line id, the
sparse index-to-revision `BTreeMap` (`revs_before`, kept sorted by key as an
association list) and the line sequence. -/
structure Text where
  rev : Nat
  nextLineId : Nat
  revsBefore : List (Nat × Nat)
  lines : List Line
  deriving Repr, DecidableEq

/-- `Text::new`. -/
def Text.new : Text := { rev := 0, nextLineId := 0, revsBefore := [], lines := [] }

/-- `Text::line_changed`: `revs_before.insert(ln_number, self.rev)` followed by
`split_off(&(ln_number + 1))`, i.e. keep keys below `n`, set key `n` to the
current revision, drop all larger keys. -/
def Text.lineChanged (t : Text) (n : Nat) : Text :=
  { t with revsBefore := t.revsBefore.filter (fun p => p.1 < n) ++ [(n, t.rev)] }

/-- `Text::line`. -/
def Text.line (t : Text) (n : Nat) : Option Line := t.lines.get? n

/-- `Text::line_mut`: bumps the global revision, records the change in
`revs_before`, and if line `n` exists stamps it with the new revision
(returning `Some`); the `Bool` models whether the borrow was `Some`. -/
def Text.lineMut (t : Text) (n : Nat) : Text × Bool :=
  let t := { t with rev := t.rev + 1 }
  let rev := t.rev
  let t := t.lineChanged n
  match t.lines.get? n with
  | some ln => ({ t with lines := t.lines.set n { ln with rev := rev } }, true)
  | none => (t, false)

/-- Mutation performed through a `&mut Line` borrow (`Line::insert`,
`remove_char`, `split_off`, `extend_line`): rewrites the content of line `n`
without touching any revision (`on_content_change` only re-derives the
cached string, which is derived data here). -/
def Text.modifyLine (t : Text) (n : Nat) (f : List Char → List Char) : Text :=
  match t.lines.get? n with
  | some ln => { t with lines := t.lines.set n { ln with content := f ln.content } }
  | none => t

/-- `Text::line_mut_populate`: bumps the revision; if line `n` exists records
the change in `revs_before` (without stamping the line's own revision);
otherwise appends fresh empty lines up to index `n`, each carrying a fresh id
and the bumped revision (this branch does not call `line_changed`). -/
def Text.lineMutPopulate (t : Text) (n : Nat) : Text :=
  let t := { t with rev := t.rev + 1 }
  if t.lines.length > n then
    t.lineChanged n
  else
    let k := n - t.lines.length + 1
    { t with
      nextLineId := t.nextLineId + k,
      lines := t.lines ++ (List.range k).map
        (fun i => { id := t.nextLineId + 1 + i, rev := t.rev, content := [] }) }

/-- `Text::remove_line`: `None` (and no revision bump) when `n` is out of
range; otherwise bumps the revision, records the structural change and
removes (returning) line `n`. -/
def Text.removeLine (t : Text) (n : Nat) : Text × Option Line :=
  if t.lines.length ≤ n then (t, none)
  else
    let t := { t with rev := t.rev + 1 }
    let t := t.lineChanged n
    ({ t with lines := t.lines.eraseIdx n }, t.lines.get? n)

/-- `Text::insert_line`: bumps the revision, assigns a fresh line id, inserts
the new line at index `n` and records the structural change. -/
def Text.insertLine (t : Text) (n : Nat) (s : List Char) : Text :=
  let t := { t with rev := t.rev + 1 }
  let t := { t with nextLineId := t.nextLineId + 1 }
  let line : Line := { id := t.nextLineId, rev := t.rev, content := s }
  let t := { t with lines := t.lines.insertIdx n line }
  t.lineChanged n

/-- `Text::insert_line_from_chars` (same revision/id behaviour as
`insert_line`, content taken as a char vector). -/
def Text.insertLineFromChars (t : Text) (n : Nat) (chars : List Char) : Text :=
  let t := { t with rev := t.rev + 1 }
  let t := { t with nextLineId := t.nextLineId + 1 }
  let line : Line := { id := t.nextLineId, rev := t.rev, content := chars }
  let t := { t with lines := t.lines.insertIdx n line }
  t.lineChanged n

/-- `Text::from`: lines read from the backing store get fresh ids and the
default (zero) revision; the global revision stays at its default. -/
def Text.fromLines (ls : List (List Char)) : Text :=
  { rev := 0,
    nextLineId := ls.length,
    revsBefore := [],
    lines := ls.enum.map (fun p => { id := p.1 + 1, rev := 0, content := p.2 }) }

/-- `LineView` from `src/text.rs`. -/
structure LineView where
  maxRevBefore : Nat
  lineNumber : Nat
  content : List Char
  lineId : Nat
  lineRev : Nat
  deriving Repr, DecidableEq

/-- `TextView` from `src/text.rs`. -/
structure TextView where
  rev : Nat
  lines : List LineView
  deriving Repr, DecidableEq

/-- The loop body of `Text::view`: walks the lines carrying the running
maximum `max_rev_so_far` of the per-line revisions. -/
def viewAux (maxSoFar n : Nat) : List Line → List LineView
  | [] => []
  | ln :: rest =>
    let m := max ln.rev maxSoFar
    { maxRevBefore := m, lineNumber := n, content := ln.content,
      lineId := ln.id, lineRev := ln.rev } :: viewAux m (n + 1) rest

/-- `Text::view`: builds the snapshot in one pass; `max_rev_before` is the
running maximum of the per-line revisions seen so far (note: the snapshot
never consults `revs_before`). -/
def Text.view (t : Text) : TextView :=
  { rev := t.rev, lines := viewAux 0 0 t.lines }

/-- `Mode` from `src/state.rs`. -/
inductive Mode where
  | insert
  | normal
  | command
  deriving Repr, DecidableEq

/-- `EditorAction` from `src/state.rs`. -/
inductive EditorAction where
  | quit
  | none
  deriving Repr, DecidableEq

/-- `CursorPos` from `src/state.rs` (field spelling kept from the source). -/
structure CursorPos where
  lineNumber : Nat
  colmun : Nat
  deriving Repr, DecidableEq

/-- Behaviour of the backing-store `File` as the session's `write` sees it:
whether the initial seek succeeds, the error (if any) each per-line
`write_all`/newline write reports, and whether the final position query and
truncation succeed. -/
structure StoreModel where
  seekStartOk : Bool
  lineWriteErr : Nat → Option String
  posQueryOk : Bool
  setLenOk : Bool

/-- `State` from `src/state.rs` (the `Hub` handle is not part of the model;
publishing does not modify the state). -/
structure State where
  cursorPos : CursorPos
  text : Text
  statusText : String
  mode : Mode
  commandLine : String
  file : Option StoreModel

/-- `Command` from `src/state.rs`. -/
inductive Command where
  | shiftMode (m : Mode)
  | deleteAtCursor
  | insertAtCursor (c : Char)
  | commitCommandline
  | moveCursor (linesDown columnsRight : Int)
  deriving Repr

/-- `state::empty`. -/
def empty : State :=
  { cursorPos := { lineNumber := 0, colmun := 0 },
    text := Text.new,
    statusText := "",
    mode := Mode.normal,
    commandLine := "",
    file := Option.none }

/-- `State::shift_mode`: sets the mode and clears the command line
(publishing a state snapshot, which does not change the state). -/
def State.shiftMode (st : State) (m : Mode) : State :=
  { st with mode := m, commandLine := "" }

/-- The status-line text `State::insert` formats after a document insertion:
`format!("char: {} @ ({},{})", byte, cur_ln, cur_col)` where `byte` is the
char as `u8` (`0` for a newline). -/
def insertStatus (b ln col : Nat) : String :=
  "char: " ++ toString b ++ " @ (" ++ toString ln ++ "," ++ toString col ++ ")"

/-- `State::insert`. In `Insert` mode: populate the cursor line, then either
split it at the cursor on `'\n'` (inserting the tail as a fresh next line) or
insert the char; in `Command` mode a non-newline char is appended to the
command line; `Normal` mode ignores it. -/
def State.insert (st : State) (c : Char) : State :=
  match st.mode with
  | Mode.insert =>
    let curLn := st.cursorPos.lineNumber
    let curCol := st.cursorPos.colmun
    let t := st.text.lineMutPopulate curLn
    if c = '\n' then
      let rest := ((t.line curLn).map (fun l => l.content.drop curCol)).getD []
      let t := t.modifyLine curLn (fun l => l.take curCol)
      let t := t.insertLineFromChars (curLn + 1) rest
      { st with
        text := t,
        cursorPos := { lineNumber := curLn + 1, colmun := 0 },
        statusText := insertStatus 0 (curLn + 1) curCol }
    else
      let t := t.modifyLine curLn
        (fun l => l.take curCol ++ c :: l.drop curCol)
      { st with
        text := t,
        cursorPos := { st.cursorPos with colmun := curCol + 1 },
        statusText := insertStatus (c.toNat % 256) curLn curCol }
  | Mode.command =>
    if c = '\n' then st
    else { st with commandLine := st.commandLine.push c }
  | Mode.normal => st

/-- `State::delete`. In `Insert` mode: behind the cursor within a line, or a
join/removal at column 0; in `Command` mode: drop the last command-line char,
or fall back to `Normal` when it is empty. -/
def State.delete (st : State) : State :=
  match st.mode with
  | Mode.insert =>
    let curCol := st.cursorPos.colmun
    if curCol > 0 then
      let (t, found) := st.text.lineMut st.cursorPos.lineNumber
      if found then
        let t := t.modifyLine st.cursorPos.lineNumber
          (fun l => l.take (curCol - 1) ++ l.drop curCol)
        { st with text := t,
                  cursorPos := { st.cursorPos with colmun := curCol - 1 } }
      else
        { st with text := t }
    else
      let curRow := st.cursorPos.lineNumber
      if curRow = 0 then
        if st.text.lines.length = 1 ∧
            ((st.text.line 0).map (fun l => l.content.length)).getD 0 = 0 then
          { st with text := (st.text.removeLine 0).1 }
        else st
      else
        let endOfPrev := ((st.text.line (curRow - 1)).map
          (fun l => l.content.length)).getD 0
        let (t, removed) := st.text.removeLine curRow
        let t :=
          match removed with
          | some curLine =>
            let (t, found) := t.lineMut (curRow - 1)
            if found then
              t.modifyLine (curRow - 1) (fun l => l ++ curLine.content)
            else t
          | none => t
        { st with text := t,
                  cursorPos := { lineNumber := curRow - 1, colmun := endOfPrev } }
  | Mode.command =>
    if st.commandLine.length > 0 then
      { st with commandLine := st.commandLine.dropRight 1 }
    else
      st.shiftMode Mode.normal
  | Mode.normal => st

/-- First failure among the per-line writes `0, 1, …, n-1` (`write_all` of
the content chained with the newline write), in loop order. -/
def firstWriteErr (f : Nat → Option String) (n : Nat) : Option String :=
  (List.range n).findSome? f

/-- `State::write`: nothing happens without a backing file; a failing initial
seek panics (`none`); the first failing per-line write is surfaced in the
status text and aborts the loop (skipping truncation); failures of the final
position query or truncation panic. -/
def State.write (st : State) : Option State :=
  match st.file with
  | Option.none => some st
  | some store =>
    if !store.seekStartOk then Option.none
    else
      match firstWriteErr store.lineWriteErr st.text.lines.length with
      | some e => some { st with statusText := "Failed to save file: " ++ e }
      | Option.none =>
        if !store.posQueryOk then Option.none
        else if !store.setLenOk then Option.none
        else some st

/-- The status text `State::write` leaves behind when it completes without
panicking: the first per-line write error formatted as
`"Failed to save file: …"`, or the previous status text when every line
write succeeded. -/
def writeOutcomeStatus (store : StoreModel) (n : Nat) (dflt : String) : String :=
  match firstWriteErr store.lineWriteErr n with
  | some e => "Failed to save file: " ++ e
  | Option.none => dflt

/-- `State::commit_command`: capture the command line, return to `Normal`,
then interpret `q` (quit), `w` (write) or anything else (ignored). -/
def State.commitCommand (st : State) : Option (State × EditorAction) :=
  let action := st.commandLine
  let st := st.shiftMode Mode.normal
  if action = "q" then some (st, EditorAction.quit)
  else if action = "w" then
    (st.write).map (fun st' => (st', EditorAction.none))
  else some (st, EditorAction.none)

/-- The `(ln, 0)` arm of `State::move_cursor`: saturating vertical move,
clamped to the last line, with the column re-clamped to the target line's
length (0 when the buffer has no such line). -/
def State.moveCursorVert (st : State) (ln : Int) : State :=
  let newLine :=
    min
      (if 0 ≤ ln then st.cursorPos.lineNumber + ln.toNat
       else st.cursorPos.lineNumber - ln.natAbs)
      (st.text.lines.length - 1)
  let newCol :=
    match st.text.line newLine with
    | some l => min st.cursorPos.colmun l.content.length
    | Option.none => 0
  { st with cursorPos := { lineNumber := newLine, colmun := newCol } }

/-- The `(0, col)` arm of `State::move_cursor`: saturating horizontal move
clamped to the current line's length; no-op when the cursor line does not
exist. -/
def State.moveCursorHoriz (st : State) (col : Int) : State :=
  match st.text.line st.cursorPos.lineNumber with
  | some line =>
    let newCol :=
      if 0 ≤ col then min (st.cursorPos.colmun + col.toNat) line.content.length
      else min (st.cursorPos.colmun - col.natAbs) line.content.length
    { st with cursorPos := { st.cursorPos with colmun := newCol } }
  | Option.none => st

/-- `State::move_cursor`: `(0,0)` is a no-op; a pure vertical or horizontal
move runs its arm; a diagonal move runs the vertical then the horizontal arm
(the source recurses with `(row, 0)` then `(0, col)`, which reduce to exactly
those arms). The trailing `assert!`s are pure checks and are omitted. -/
def State.moveCursor (st : State) (d : Int × Int) : State :=
  if d.1 = 0 ∧ d.2 = 0 then st
  else if d.2 = 0 then st.moveCursorVert d.1
  else if d.1 = 0 then st.moveCursorHoriz d.2
  else (st.moveCursorVert d.1).moveCursorHoriz d.2

/-- `State::dispatch`: `ShiftMode` is handled in any mode; otherwise the
current mode gates which commands act (the source matches on the mode first
and the command second; the two independent case splits are commuted here,
yielding the same function). `none` models a panic escaping `dispatch`
(only possible through `write`'s `expect`s). -/
def State.dispatch (st : State) (c : Command) : Option (State × EditorAction) :=
  match c with
  | Command.shiftMode m => some (st.shiftMode m, EditorAction.none)
  | Command.deleteAtCursor =>
    match st.mode with
    | Mode.insert => some (st.delete, EditorAction.none)
    | Mode.command => some (st.delete, EditorAction.none)
    | Mode.normal => some (st, EditorAction.none)
  | Command.insertAtCursor ch =>
    match st.mode with
    | Mode.insert => some (st.insert ch, EditorAction.none)
    | Mode.command => some (st.insert ch, EditorAction.none)
    | Mode.normal => some (st, EditorAction.none)
  | Command.commitCommandline =>
    match st.mode with
    | Mode.command => st.commitCommand
    | Mode.insert => some (st, EditorAction.none)
    | Mode.normal => some (st, EditorAction.none)
  | Command.moveCursor ld cr =>
    match st.mode with
    | Mode.normal => some (st.moveCursor (ld, cr), EditorAction.none)
    | Mode.insert => some (st, EditorAction.none)
    | Mode.command => some (st, EditorAction.none)

/-- Run one dispatched command, keeping the state (used to chain concrete
scenarios; every command in those scenarios dispatches without panic). -/
def step (st : State) (c : Command) : State :=
  ((st.dispatch c).getD (st, EditorAction.none)).1

/-- Run a command sequence through `dispatch`. -/
def runCommands (st : State) (cs : List Command) : State :=
  cs.foldl step st

/-- The mutating buffer operations of the spec (§4.2), as the composites of
`Text` primitives the session code performs: insert-char, delete-char,
split-line-on-newline, join-with-previous-line, remove-line, insert-line. -/
inductive BufOp where
  | insertChar (ln col : Nat) (c : Char)
  | deleteChar (ln col : Nat)
  | splitLine (ln col : Nat)
  | joinPrev (ln : Nat)
  | removeLine (ln : Nat)
  | insertLine (ln : Nat) (s : List Char)
  deriving Repr

/-- Apply a mutating buffer operation, following the exact call sequences of
`State::insert` / `State::delete` / the `Text` API. -/
def BufOp.apply : BufOp → Text → Text
  | BufOp.insertChar ln col c, t =>
    (t.lineMutPopulate ln).modifyLine ln (fun l => l.take col ++ c :: l.drop col)
  | BufOp.deleteChar ln col, t =>
    let (t, found) := t.lineMut ln
    if found then t.modifyLine ln (fun l => l.take (col - 1) ++ l.drop col) else t
  | BufOp.splitLine ln col, t =>
    let t := t.lineMutPopulate ln
    let rest := ((t.line ln).map (fun l => l.content.drop col)).getD []
    let t := t.modifyLine ln (fun l => l.take col)
    t.insertLineFromChars (ln + 1) rest
  | BufOp.joinPrev ln, t =>
    let (t, removed) := t.removeLine ln
    match removed with
    | some cur =>
      let (t, found) := t.lineMut (ln - 1)
      if found then t.modifyLine (ln - 1) (fun l => l ++ cur.content) else t
    | Option.none => t
  | BufOp.removeLine ln, t => (t.removeLine ln).1
  | BufOp.insertLine ln s, t => t.insertLine ln s

/-- An operation actually mutates the buffer: a line removal (alone or as
part of a join) must name an existing line; the other operations mutate
unconditionally. -/
def BufOp.valid : BufOp → Text → Prop
  | BufOp.joinPrev ln, t => 0 < ln ∧ ln < t.lines.length
  | BufOp.removeLine ln, t => ln < t.lines.length
  | _, _ => True

instance (op : BufOp) (t : Text) : Decidable (op.valid t) :=
  match op with
  | BufOp.insertChar .. => Decidable.isTrue trivial
  | BufOp.deleteChar .. => Decidable.isTrue trivial
  | BufOp.splitLine .. => Decidable.isTrue trivial
  | BufOp.joinPrev _ => inferInstanceAs (Decidable (_ ∧ _))
  | BufOp.removeLine _ => inferInstanceAs (Decidable (_ < _))
  | BufOp.insertLine .. => Decidable.isTrue trivial

/-- Apply a sequence of buffer operations. -/
def applyOps (ops : List BufOp) (t : Text) : Text :=
  ops.foldl (fun t op => op.apply t) t

/-- The structural changes (line insert / line remove) of an operation
sequence, as `(index, revision after the change)` events in order. -/
def structuralEvents : List BufOp → Text → List (Nat × Nat)
  | [], _ => []
  | op :: rest, t =>
    let t' := op.apply t
    match op with
    | BufOp.removeLine ln => (ln, t'.rev) :: structuralEvents rest t'
    | BufOp.insertLine ln _ => (ln, t'.rev) :: structuralEvents rest t'
    | _ => structuralEvents rest t'

/-- The most recent (= largest, since revisions increase) revision among
structural change events at an index at or before `i`. -/
def maxStructRevAtOrBefore (evs : List (Nat × Nat)) (i : Nat) : Nat :=
  ((evs.filter (fun p => p.1 ≤ i)).map Prod.snd).foldl max 0

/-- The per-line revision maximum the snapshot actually exposes: the maximum
of the stamped revisions of lines at index at or before `i`. -/
def linesMaxRev (ls : List Line) (i : Nat) : Nat :=
  ((ls.take (i + 1)).map Line.rev).foldl max 0

/-- `Bouncer` from `bouncer/src/lib.rs`. Instants are modelled as whole
nanoseconds since `start_time` (`Int`, since the zero-budget branch arms the
deadline one nanosecond in the past). -/
structure Bouncer where
  deadline : Option Int
  millisBudget : Nat
  hotDeadlineProximity : Option Nat
  deriving Repr, DecidableEq

/-- `BouncerBuilder::build` with `time_between_deadlines` and optional
`skip_hot_deadline` grace, both in whole milliseconds (as `as_millis`
truncates them at build time). -/
def Bouncer.build (periodMs : Nat) (graceMs : Option Nat) : Bouncer :=
  { deadline := Option.none, millisBudget := periodMs, hotDeadlineProximity := graceMs }

/-- `Bouncer::mark` at `nowNs` nanoseconds after scheduler start: no-op when
armed; a zero budget arms one nanosecond in the past; otherwise the elapsed
time is truncated to whole milliseconds (`as_millis`), the remainder of the
period boundary is computed, the grace window may skip one full period, and
the deadline is `now` plus that many milliseconds. A negative `nowNs` models
`checked_duration_since` returning `None` (`unwrap_or(0)`); the
`min(u64::MAX)` clamp is unreachable for representable budgets. -/
def Bouncer.mark (b : Bouncer) (nowNs : Int) : Bouncer :=
  if b.deadline.isSome then b
  else if b.millisBudget = 0 then { b with deadline := some (nowNs - 1) }
  else
    let millisIn := (nowNs.toNat / 1000000) % b.millisBudget
    let untilNext0 := b.millisBudget - millisIn
    let untilNext :=
      match b.hotDeadlineProximity with
      | some g => if untilNext0 < g then untilNext0 + b.millisBudget else untilNext0
      | Option.none => untilNext0
    { b with deadline := some (nowNs + (untilNext * 1000000 : Nat)) }

/-- Strip one trailing carriage return, as Rust's `BufRead::lines` does after
removing the newline. -/
def stripCR (l : List Char) : List Char :=
  if l.getLast? = some '\r' then l.dropLast else l

/-- Loop of the `BufRead::lines` model: split on `'\n'`, strip a trailing
`'\r'` from each piece, and yield no final empty line after a trailing
newline. -/
def readLinesAux : List Char → List Char → List (List Char)
  | [], acc => if acc.isEmpty then [] else [stripCR acc.reverse]
  | c :: cs, acc =>
    if c = '\n' then stripCR acc.reverse :: readLinesAux cs []
    else readLinesAux cs (c :: acc)

/-- The line sequence `from_file`'s `BufReader::lines` loop reads from the
stored byte sequence. -/
def readLines (s : List Char) : List (List Char) := readLines.go s
where go (s : List Char) : List (List Char) := readLinesAux s []

/-- The byte sequence `State::write` stores for the given line contents: each
line followed by a newline (the loop's `i < num_lines` guard always holds, so
every line, the last included, is newline-terminated). -/
def writeChars (ls : List (List Char)) : List Char :=
  ls.foldr (fun l acc => l ++ '\n' :: acc) []

/-- The bytes `State::write` produces for a buffer. -/
def serializeText (t : Text) : List Char :=
  writeChars (t.lines.map Line.content)

/-- Write-then-read round trip: serialize the buffer, then rebuild a buffer
from the stored bytes the way `from_file` does. -/
def roundTrip (t : Text) : Text :=
  Text.fromLines (readLines (serializeText t))

/-- `HighlightedLine` from `src/highlight.rs`: styled output, the source-line
revision it was derived from (the pass stores `line.max_rev_before()`), and
the content-derived highlight revision. -/
structure HighlightedLine where
  highlightedText : String
  highlightedLineRev : Nat
  highlightRev : Nat
  deriving Repr, DecidableEq

/-- `HashMap::insert` on the highlight map, modelled on an association list:
the new binding shadows (replaces) any previous binding of the key. -/
def hmInsert (k : Nat) (v : HighlightedLine)
    (m : List (Nat × HighlightedLine)) : List (Nat × HighlightedLine) :=
  (k, v) :: m.filter (fun p => p.1 ≠ k)

/-- The highlight map published at the completion of one highlighter pass
(`new_state` at the final `hub.send`): the previous map with an entry
inserted for every line of the accepted snapshot. `escape` is the styled
output syntect produces for the line at a given index in this pass (syntect
is an external collaborator; the theorems quantify over every possible
output), and `hashFn` models `DefaultHasher` on (output, line id). -/
def highlightPassPublished (escape : Nat → String) (hashFn : String → Nat → Nat)
    (prev : List (Nat × HighlightedLine)) (snap : TextView) :
    List (Nat × HighlightedLine) :=
  snap.lines.foldl (fun m lv =>
    let escaped := escape lv.lineNumber
    hmInsert lv.lineId
      { highlightedText := escaped,
        highlightedLineRev := lv.maxRevBefore,
        highlightRev := hashFn escaped lv.lineId } m) prev

/-- The `seen_lines` set accumulated over the pass: the line ids of the
accepted snapshot. -/
def seenLines (snap : TextView) : List Nat :=
  snap.lines.map LineView.lineId

/-- The map retained after the pass (`prev_hl_state` after the `retain`):
the published map restricted to line ids seen in this pass. -/
def highlightPassRetained (escape : Nat → String) (hashFn : String → Nat → Nat)
    (prev : List (Nat × HighlightedLine)) (snap : TextView) :
    List (Nat × HighlightedLine) :=
  (highlightPassPublished escape hashFn prev snap).filter
    (fun p => (seenLines snap).contains p.1)

/-- A subscription endpoint of one topic: whether its receiver is still
alive, and the values enqueued on its channel. -/
structure Subscriber (α : Type) where
  alive : Bool
  queue : List α

/-- One `s.send(value.clone())` of the publish loop: enqueue on a live
subscriber, fail (leaving the queue alone) on a dropped one. -/
def deliver (v : α) (s : Subscriber α) : Subscriber α :=
  if s.alive then { s with queue := s.queue ++ [v] } else s

/-- `Vec::swap_remove`: remove the element at `i`, moving the last element
into its place. -/
def swapRemove (l : List α) (i : Nat) : List α :=
  match l.getLast? with
  | Option.none => []
  | some last => l.dropLast.set i last

/-- The `closed_channels` index list gathered by the publish loop: positions
(from `k` up) of subscribers whose send failed, in iteration order. -/
def deadIndicesFrom (k : Nat) : List (Subscriber α) → List Nat
  | [] => []
  | s :: rest =>
    if s.alive then deadIndicesFrom (k + 1) rest
    else k :: deadIndicesFrom (k + 1) rest

/-- `HubInternal::send` on one topic: deliver to every sender, gather the
failed indices, prune them with `swap_remove` in reverse order, and report
`Ok` exactly when at least one sender remains. -/
def hubSend (subs : List (Subscriber α)) (v : α) : List (Subscriber α) × Bool :=
  let delivered := subs.map (deliver v)
  let closed := deadIndicesFrom 0 delivered
  let pruned := closed.reverse.foldl swapRemove delivered
  (pruned, decide (0 < pruned.length))

/-- A first snapshot holding the single line with identity 1. -/
def c8snapA : TextView :=
  { rev := 1,
    lines := [{ maxRevBefore := 1, lineNumber := 0, content := ['a'],
                lineId := 1, lineRev := 1 }] }

/-- A second snapshot in which line 1 has been deleted and replaced by the
line with identity 2. -/
def c8snapB : TextView :=
  { rev := 2,
    lines := [{ maxRevBefore := 2, lineNumber := 0, content := ['b'],
                lineId := 2, lineRev := 2 }] }

/-- A concrete highlighter output function for the counterexample pass. -/
def c8escape : Nat → String := fun _ => "x"

/-- A concrete hash function for the counterexample pass. -/
def c8hash : String → Nat → Nat := fun _ _ => 0

/-! ## Theorems -/

/-- C1: starting from an empty buffer in Insert mode, dispatching
`InsertAtCursor` `'a'`, `'b'`, `'\n'`, `'c'` leaves the document as the two
lines `["ab", "c"]` with cursor `(1,1)`; dispatching `DeleteAtCursor` twice
then leaves the single line `"ab"` with cursor `(0,2)`; and after shifting to
command entry and typing `"q"`, dispatching `CommitCommandline` yields the
`Quit` editor action without mutating the document. -/
theorem c1_end_to_end :
    let s0 : State := { Jete.empty with mode := Mode.insert }
    let s4 := runCommands s0 [Command.insertAtCursor 'a', Command.insertAtCursor 'b',
      Command.insertAtCursor '\n', Command.insertAtCursor 'c']
    let s6 := runCommands s4 [Command.deleteAtCursor, Command.deleteAtCursor]
    let s8 := runCommands s6 [Command.shiftMode Mode.command, Command.insertAtCursor 'q']
    s4.text.lines.map Line.content = [['a', 'b'], ['c']] ∧
    s4.cursorPos = { lineNumber := 1, colmun := 1 } ∧
    s6.text.lines.map Line.content = [['a', 'b']] ∧
    s6.cursorPos = { lineNumber := 0, colmun := 2 } ∧
    (s8.dispatch Command.commitCommandline).map (fun p => p.2) =
      some EditorAction.quit ∧
    (s8.dispatch Command.commitCommandline).map (fun p => p.1.text) =
      some s8.text := by
  exact ⟨rfl, rfl, rfl, rfl, rfl, rfl⟩

/-- C4 counterexample: with period 10 ms and grace 1 ms, `mark()` at 9.5 ms
elapsed arms the deadline at 10.5 ms after start, not at 20 ms as the claim
states — `as_millis` truncates the elapsed time to 9 ms, so the remaining
1 ms is not strictly below the 1 ms grace window and no skip happens. -/
theorem c4_grace_counterexample :
    ((Bouncer.build 10 (some 1)).mark 9500000).deadline = some 10500000 ∧
    some (10500000 : Int) ≠ some (20000000 : Int) := by
  exact ⟨rfl, by decide⟩

/-- C4 amended: with period 10 ms and grace 1 ms, `mark()` at 9.5 ms elapsed
arms the deadline 1 ms later, at 10.5 ms after start (elapsed time truncates
to whole milliseconds, so the 1 ms remainder is not inside the grace window
and the deadline is anchored to `now`, not to the period boundary); `mark()`
at 5 ms elapsed arms the deadline at 10 ms after start, as claimed. -/
theorem c4_mark_deadlines :
    ((Bouncer.build 10 (some 1)).mark 9500000).deadline = some 10500000 ∧
    ((Bouncer.build 10 (some 1)).mark 5000000).deadline = some 10000000 :=
  ⟨rfl, rfl⟩


/-- Looking up a key appended behind entries with strictly smaller keys. -/
theorem lookup_keys_lt (k v : Nat) :
    ∀ (l : List (Nat × Nat)), (∀ p ∈ l, p.1 < k) → (l ++ [(k, v)]).lookup k = some v := by
  intro l hl
  induction l with
  | nil => simp [List.lookup]
  | cons a rest ih =>
    have ha : a.1 < k := hl a (by simp)
    have hb : (k == a.1) = false := by
      simp only [beq_eq_false_iff_ne, ne_eq]
      omega
    simp only [List.cons_append, List.lookup, hb]
    exact ih (fun p hp => hl p (by simp [hp]))

/-- C10: for every index `n` at or beyond the line count, `line_mut(n)`
returns `None` and mutates no line, yet still increments the global revision
by one and records that new revision in the index-to-revision map at `n`. -/
theorem c10_line_mut_out_of_range (t : Text) (n : Nat) (h : t.lines.length ≤ n) :
    (t.lineMut n).2 = false ∧
    (t.lineMut n).1.rev = t.rev + 1 ∧
    (t.lineMut n).1.revsBefore.lookup n = some (t.rev + 1) ∧
    (t.lineMut n).1.lines = t.lines := by
  have hget : t.lines[n]? = none := List.getElem?_eq_none h
  have hlk : (List.filter (fun p => decide (p.1 < n)) t.revsBefore ++ [(n, t.rev + 1)]).lookup n
      = some (t.rev + 1) :=
    lookup_keys_lt n (t.rev + 1) _ (fun p hp => of_decide_eq_true (List.mem_filter.mp hp).2)
  unfold Text.lineMut
  simp [Text.lineChanged, hget, hlk]

/-- Witness for C10 on a one-line buffer and the out-of-range index 5. -/
theorem c10_witness :
    ((Text.new.insertLine 0 ['a']).lineMut 5).2 = false ∧
    ((Text.new.insertLine 0 ['a']).lineMut 5).1.rev = (Text.new.insertLine 0 ['a']).rev + 1 ∧
    ((Text.new.insertLine 0 ['a']).lineMut 5).1.revsBefore.lookup 5 =
      some ((Text.new.insertLine 0 ['a']).rev + 1) ∧
    ((Text.new.insertLine 0 ['a']).lineMut 5).1.lines = (Text.new.insertLine 0 ['a']).lines :=
  c10_line_mut_out_of_range (Text.new.insertLine 0 ['a']) 5 (by decide)

/-- C7: dispatching a delete in Insert mode with the cursor at column 0 of
line 0 leaves the state unchanged, unless the buffer is exactly one line with
empty content, in which case that single line is removed (the cursor staying
put). -/
theorem c7_delete_at_origin (st : State) (hm : st.mode = Mode.insert)
    (hl : st.cursorPos.lineNumber = 0) (hc : st.cursorPos.colmun = 0) :
    (st.text.lines.map Line.content = [[]] →
      (st.delete).text.lines = [] ∧ (st.delete).cursorPos = st.cursorPos) ∧
    (st.text.lines.map Line.content ≠ [[]] → st.delete = st) := by
  constructor
  · intro hone
    cases hls : st.text.lines with
    | nil => rw [hls] at hone; simp at hone
    | cons l rest =>
      cases rest with
      | cons l2 rest2 => rw [hls] at hone; simp at hone
      | nil =>
        rw [hls] at hone
        simp only [List.map_cons, List.map_nil, List.cons.injEq, and_true] at hone
        have hcond : st.text.lines.length = 1 ∧
            ((st.text.line 0).map (fun l => l.content.length)).getD 0 = 0 := by
          simp [Text.line, hls, hone]
        simp [State.delete, hm, hc, hl, hcond, Text.removeLine, Text.lineChanged, hls]
  · intro hnot
    have hcond : ¬(st.text.lines.length = 1 ∧
        ((st.text.line 0).map (fun l => l.content.length)).getD 0 = 0) := by
      rintro ⟨h1, h2⟩
      obtain ⟨a, hls⟩ := List.length_eq_one.mp h1
      rw [Text.line, hls] at h2
      simp at h2
      exact hnot (by rw [hls]; simp [h2])
    simp [State.delete, hm, hc, hl, hcond]

/-- Witness for C7: deleting at the origin of a buffer holding one empty
line removes that line. -/
theorem c7_witness :
    let st : State := { Jete.empty with mode := Mode.insert, text := Text.new.insertLine 0 [] }
    (st.delete).text.lines = [] ∧ (st.delete).cursorPos = st.cursorPos :=
  (c7_delete_at_origin _ rfl rfl rfl).1 (by decide)

/-- The snapshot has one `LineView` per line. -/
theorem viewAux_length (ls : List Line) : ∀ (m n : Nat), (viewAux m n ls).length = ls.length := by
  induction ls with
  | nil => intro m n; rfl
  | cons a t ih => intro m n; simp [viewAux, ih]

/-- A running maximum never drops below its seed. -/
theorem le_foldl_max (l : List Nat) : ∀ (s : Nat), s ≤ l.foldl max s := by
  induction l with
  | nil => intro s; exact le_refl s
  | cons a t ih => intro s; exact le_trans (le_max_left s a) (ih _)

/-- The `max_rev_before` of the `i`-th produced `LineView` is the maximum of
the seed and the revisions of the first `i + 1` lines. -/
theorem viewAux_get (ls : List Line) :
    ∀ (m n i : Nat) (h : i < (viewAux m n ls).length),
      ((viewAux m n ls).get ⟨i, h⟩).maxRevBefore =
        ((ls.take (i + 1)).map Line.rev).foldl max m := by
  induction ls with
  | nil => intro m n i h; simp [viewAux] at h
  | cons a t ih =>
    intro m n i h
    cases i with
    | zero => simp [viewAux, Nat.max_comm]
    | succ k =>
      have hk : k < (viewAux (max a.rev m) (n + 1) t).length := by
        have := h; simp [viewAux] at this; simpa [viewAux_length] using this
      have step : ((viewAux m n (a :: t)).get ⟨k + 1, h⟩) =
          ((viewAux (max a.rev m) (n + 1) t).get ⟨k, hk⟩) := rfl
      rw [step, ih]
      simp [List.foldl_cons, Nat.max_comm]

/-- C3 amended: in any snapshot, the exposed `max_rev_before` of line `i`
equals the maximum of the per-line (last-stamped) revisions of the lines at
index at or before `i` — content changes included, the structural
index-to-revision map not consulted — and it is non-decreasing in `i`. -/
theorem c3_max_rev_before (t : Text) :
    (∀ (i : Nat) (h : i < (t.view).lines.length),
      ((t.view).lines.get ⟨i, h⟩).maxRevBefore = linesMaxRev t.lines i) ∧
    (∀ (i j : Nat) (hi : i < (t.view).lines.length)
        (hj : j < (t.view).lines.length), i ≤ j →
      ((t.view).lines.get ⟨i, hi⟩).maxRevBefore ≤
        ((t.view).lines.get ⟨j, hj⟩).maxRevBefore) := by
  have hpart1 : ∀ (i : Nat) (h : i < (t.view).lines.length),
      ((t.view).lines.get ⟨i, h⟩).maxRevBefore = linesMaxRev t.lines i := by
    intro i h
    exact viewAux_get t.lines 0 0 i h
  refine ⟨hpart1, ?_⟩
  intro i j hi hj hij
  rw [hpart1 i hi, hpart1 j hj]
  unfold linesMaxRev
  have hsplit : j + 1 = (i + 1) + (j - i) := by omega
  conv_rhs => rw [hsplit, List.take_add, List.map_append, List.foldl_append]
  exact le_foldl_max _ _

/-- C3 counterexample: insert two lines (revisions 1 and 2), then remove the
first (revision 3). The snapshot exposes `max_rev_before(0) = 2` — the
surviving line's own revision — while the most recent structural change at an
index at or before 0 is the removal, revision 3. The exposed value is not the
structural one the claim describes. -/
theorem c3_counterexample :
    (applyOps [BufOp.insertLine 0 ['a'], BufOp.insertLine 1 ['b'],
        BufOp.removeLine 0] Text.new).view.lines.map LineView.maxRevBefore = [2] ∧
    maxStructRevAtOrBefore
      (structuralEvents [BufOp.insertLine 0 ['a'], BufOp.insertLine 1 ['b'],
        BufOp.removeLine 0] Text.new) 0 = 3 ∧
    (2 : Nat) ≠ 3 := by decide

/-- Witness for C3 (amended) on a one-line buffer at index 0. -/
theorem c3_witness :
    (((Text.new.insertLine 0 ['a']).view).lines.get ⟨0, by decide⟩).maxRevBefore =
      linesMaxRev (Text.new.insertLine 0 ['a']).lines 0 ∧
    (((Text.new.insertLine 0 ['a']).view).lines.get ⟨0, by decide⟩).maxRevBefore ≤
      (((Text.new.insertLine 0 ['a']).view).lines.get ⟨0, by decide⟩).maxRevBefore :=
  ⟨(c3_max_rev_before _).1 0 (by decide),
   (c3_max_rev_before _).2 0 0 (by decide) (by decide) (le_refl 0)⟩

/-- Rebuilding a buffer from stored lines preserves their contents. -/
theorem fromLines_contents (ls : List (List Char)) :
    (Text.fromLines ls).lines.map Line.content = ls := by
  unfold Text.fromLines
  simp only [List.map_map]
  exact List.enum_map_snd ls

/-- Stripping a carriage return is the identity on lines not ending in one. -/
theorem stripCR_eq (l : List Char) (h : l.getLast? ≠ some '\r') : stripCR l = l := by
  unfold stripCR
  rw [if_neg h]

/-- The reader consumes one newline-free line up to its terminator. -/
theorem readLinesAux_consume (s l : List Char) (hl : '\n' ∉ l) :
    ∀ acc, readLinesAux (l ++ '\n' :: s) acc =
      stripCR (acc.reverse ++ l) :: readLinesAux s [] := by
  induction l with
  | nil => intro acc; simp [readLinesAux]
  | cons c t ih =>
    intro acc
    have hc : c ≠ '\n' := fun h => hl (h ▸ List.mem_cons_self c t)
    have hnl : '\n' ∉ t := fun h => hl (List.mem_cons_of_mem c h)
    simp only [List.cons_append, readLinesAux, if_neg hc, List.append_eq]
    rw [ih hnl (c :: acc)]
    simp [List.append_assoc]

/-- Reading back the serialized form recovers the line contents, provided no
line contains a newline or ends in a carriage return. -/
theorem readLines_writeChars (cs : List (List Char))
    (h1 : ∀ l ∈ cs, '\n' ∉ l) (h2 : ∀ l ∈ cs, l.getLast? ≠ some '\r') :
    readLines (writeChars cs) = cs := by
  induction cs with
  | nil => rfl
  | cons l rest ih =>
    show readLinesAux (l ++ '\n' :: writeChars rest) [] = l :: rest
    rw [readLinesAux_consume _ l (h1 l (by simp)) []]
    rw [List.reverse_nil, List.nil_append, stripCR_eq l (h2 l (by simp))]
    have ihr : readLinesAux (writeChars rest) [] = rest :=
      ih (fun x hx => h1 x (by simp [hx])) (fun x hx => h2 x (by simp [hx]))
    rw [ihr]

/-- C5 amended: for every buffer whose lines contain no `'\n'` and do not
end in `'\r'`, writing it to the backing store and reading the store back
yields a buffer with identical line contents. -/
theorem c5_round_trip (t : Text)
    (h1 : ∀ l ∈ t.lines, '\n' ∉ l.content)
    (h2 : ∀ l ∈ t.lines, l.content.getLast? ≠ some '\r') :
    (roundTrip t).lines.map Line.content = t.lines.map Line.content := by
  unfold roundTrip serializeText
  rw [fromLines_contents, readLines_writeChars]
  · intro l hl
    obtain ⟨ln, hln, rfl⟩ := List.mem_map.mp hl
    exact h1 ln hln
  · intro l hl
    obtain ⟨ln, hln, rfl⟩ := List.mem_map.mp hl
    exact h2 ln hln

/-- C5 counterexample: a buffer whose single line is `"a\r"` serializes to
`"a\r\n"`, and reading that back yields the line `"a"` — the reader strips
the trailing carriage return — so write-then-read is not the identity on
every buffer. -/
theorem c5_counterexample :
    (roundTrip (Text.new.insertLine 0 ['a', '\r'])).lines.map Line.content ≠
      (Text.new.insertLine 0 ['a', '\r']).lines.map Line.content := by decide

/-- Witness for C5 (amended) on a one-line buffer. -/
theorem c5_witness :
    (roundTrip (Text.new.insertLine 0 ['a'])).lines.map Line.content =
      (Text.new.insertLine 0 ['a']).lines.map Line.content :=
  c5_round_trip _ (by decide) (by decide)

/-- C6 counterexample: committing `"w"` with a backing store whose initial
seek fails does not surface the failure as status text — the `expect` panics
and no state or action is returned at all (`none`), contradicting "every
failure … is surfaced as status text and never propagated". -/
theorem c6_counterexample :
    ({ Jete.empty with mode := Mode.command, commandLine := "w", file := some { seekStartOk := false, lineWriteErr := fun _ => Option.none, posQueryOk := true, setLenOk := true } } : State).dispatch Command.commitCommandline = Option.none := rfl

/-- C6 amended: committing `"w"` when the initial seek, the final position
query and the truncation succeed never panics: the dispatch returns the
non-Quit action, and the first per-line write failure (if any) is surfaced in
the status text, with no error propagated to the caller. -/
theorem c6_write_failure_surfaced (st : State) (store : StoreModel)
    (hm : st.mode = Mode.command) (hcl : st.commandLine = "w")
    (hf : st.file = some store) (hseek : store.seekStartOk = true)
    (hpos : store.posQueryOk = true) (hlen : store.setLenOk = true) :
    st.dispatch Command.commitCommandline =
      some ({ st with mode := Mode.normal, commandLine := "", statusText := writeOutcomeStatus store st.text.lines.length st.statusText }, EditorAction.none) := by
  simp only [State.dispatch, hm, State.commitCommand, hcl, State.shiftMode]
  rw [if_pos trivial]
  simp only [State.write, hf, hseek, Bool.not_true, writeOutcomeStatus]
  cases heq : firstWriteErr store.lineWriteErr st.text.lines.length with
  | some e => simp [heq]
  | none => simp [heq, hpos, hlen]

/-- Witness for C6 (amended): a one-line buffer whose per-line write fails
with "disk full" surfaces exactly that message. -/
theorem c6_witness :
    let store : StoreModel := { seekStartOk := true, lineWriteErr := fun _ => some "disk full", posQueryOk := true, setLenOk := true }
    let st : State := { Jete.empty with mode := Mode.command, commandLine := "w", text := Text.new.insertLine 0 ['a'], file := some store }
    st.dispatch Command.commitCommandline =
      some ({ st with mode := Mode.normal, commandLine := "", statusText := writeOutcomeStatus store st.text.lines.length st.statusText }, EditorAction.none) :=
  c6_write_failure_surfaced _ _ rfl rfl rfl rfl rfl rfl

/-- Content edits through a line borrow do not touch the global revision. -/
theorem modifyLine_rev (t : Text) (n : Nat) (f : List Char → List Char) :
    (t.modifyLine n f).rev = t.rev := by
  unfold Text.modifyLine
  cases t.lines.get? n <;> rfl

/-- Recording an index in `revs_before` does not change the revision. -/
theorem lineChanged_rev (t : Text) (n : Nat) : (t.lineChanged n).rev = t.rev := rfl

/-- `line_mut` always bumps the revision by one. -/
theorem lineMut_rev (t : Text) (n : Nat) : (t.lineMut n).1.rev = t.rev + 1 := by
  unfold Text.lineMut Text.lineChanged
  dsimp only
  cases hg : t.lines.get? n <;> simp [hg]

/-- `line_mut_populate` always bumps the revision by one. -/
theorem lineMutPopulate_rev (t : Text) (n : Nat) :
    (t.lineMutPopulate n).rev = t.rev + 1 := by
  unfold Text.lineMutPopulate
  dsimp only
  split <;> rfl

/-- `insert_line` bumps the revision by one. -/
theorem insertLine_rev (t : Text) (n : Nat) (s : List Char) :
    (t.insertLine n s).rev = t.rev + 1 := rfl

/-- `insert_line_from_chars` bumps the revision by one. -/
theorem insertLineFromChars_rev (t : Text) (n : Nat) (chars : List Char) :
    (t.insertLineFromChars n chars).rev = t.rev + 1 := rfl

/-- `remove_line` of an existing line bumps the revision by one. -/
theorem removeLine_rev (t : Text) (n : Nat) (h : n < t.lines.length) :
    (t.removeLine n).1.rev = t.rev + 1 := by
  unfold Text.removeLine
  rw [if_neg (by omega)]
  rfl

/-- A vertical cursor move leaves the text untouched. -/
theorem moveCursorVert_text (st : State) (ln : Int) :
    (st.moveCursorVert ln).text = st.text := rfl

/-- A horizontal cursor move leaves the text untouched. -/
theorem moveCursorHoriz_text (st : State) (col : Int) :
    (st.moveCursorHoriz col).text = st.text := by
  unfold State.moveCursorHoriz
  cases st.text.line st.cursorPos.lineNumber <;> rfl

/-- `move_cursor` leaves the text untouched. -/
theorem moveCursor_text (st : State) (d : Int × Int) :
    (st.moveCursor d).text = st.text := by
  unfold State.moveCursor
  split
  · rfl
  · split
    · rfl
    · split
      · exact moveCursorHoriz_text st d.2
      · rw [moveCursorHoriz_text, moveCursorVert_text]

/-- C2: every mutating buffer operation strictly increases the global
revision, and a dispatched cursor move in Normal mode leaves the text (its
revision included) unchanged. -/
theorem c2_revision_monotone :
    (∀ (op : BufOp) (t : Text), op.valid t → t.rev < (op.apply t).rev) ∧
    (∀ (st : State) (a b : Int), st.mode = Mode.normal →
      (st.dispatch (Command.moveCursor a b)).map (fun p => p.1.text) =
        some st.text) := by
  constructor
  · intro op t hv
    cases op with
    | insertChar ln col c =>
      show t.rev < ((t.lineMutPopulate ln).modifyLine ln _).rev
      rw [modifyLine_rev, lineMutPopulate_rev]
      omega
    | deleteChar ln col =>
      show t.rev <
        (if (t.lineMut ln).2 = true then
          (t.lineMut ln).1.modifyLine ln (fun l => List.take (col - 1) l ++ List.drop col l)
        else (t.lineMut ln).1).rev
      split
      · rw [modifyLine_rev, lineMut_rev]; omega
      · rw [lineMut_rev]; omega
    | splitLine ln col =>
      show t.rev <
        (((t.lineMutPopulate ln).modifyLine ln (fun l => List.take col l)).insertLineFromChars
          (ln + 1) ((((t.lineMutPopulate ln).line ln).map
            (fun l => List.drop col l.content)).getD [])).rev
      rw [insertLineFromChars_rev, modifyLine_rev, lineMutPopulate_rev]
      omega
    | joinPrev ln =>
      obtain ⟨hpos, hlen⟩ := hv
      have hrev1 : (t.removeLine ln).1.rev = t.rev + 1 := removeLine_rev t ln hlen
      show t.rev <
        (match (t.removeLine ln).2 with
         | some cur =>
           if ((t.removeLine ln).1.lineMut (ln - 1)).2 = true then
             ((t.removeLine ln).1.lineMut (ln - 1)).1.modifyLine (ln - 1)
               (fun l => l ++ cur.content)
           else ((t.removeLine ln).1.lineMut (ln - 1)).1
         | Option.none => (t.removeLine ln).1).rev
      cases hrm : (t.removeLine ln).2 with
      | some cur =>
        dsimp only
        split
        · rw [modifyLine_rev, lineMut_rev, hrev1]; omega
        · rw [lineMut_rev, hrev1]; omega
      | none =>
        dsimp only
        rw [hrev1]; omega
    | removeLine ln =>
      show t.rev < (t.removeLine ln).1.rev
      rw [removeLine_rev t ln hv]
      omega
    | insertLine ln s =>
      show t.rev < (t.insertLine ln s).rev
      rw [insertLine_rev]
      omega
  · intro st a b hm
    simp [State.dispatch, hm, moveCursor_text]

/-- Witness for C2: removing the only line of a one-line buffer bumps the
revision, and a Normal-mode cursor move preserves the text. -/
theorem c2_witness :
    (Text.new.insertLine 0 ['a']).rev <
      ((BufOp.removeLine 0).apply (Text.new.insertLine 0 ['a'])).rev ∧
    ((Jete.empty.dispatch (Command.moveCursor 1 0)).map (fun p => p.1.text) =
      some Jete.empty.text) :=
  ⟨c2_revision_monotone.1 (BufOp.removeLine 0) (Text.new.insertLine 0 ['a']) (by decide),
   c2_revision_monotone.2 Jete.empty 1 0 rfl⟩

/-- C8 counterexample: after a pass over a snapshot holding only line id 1,
a pass over a snapshot holding only line id 2 publishes, at its completion, a
map that still contains the entry for the deleted line id 1 — stale entries
are dropped only from the state retained for the next pass, after the
publish. -/
theorem c8_counterexample :
    1 ∈ (highlightPassPublished c8escape c8hash
      (highlightPassRetained c8escape c8hash [] c8snapA) c8snapB).map Prod.fst ∧
    1 ∉ seenLines c8snapB := by decide

/-- C8 amended: the map retained at the end of a pass (the base of the next
pass, after `retain`) contains no entry keyed by a `LineIdentity` absent from
the accepted snapshot; the map published at the completion of the pass may
still carry entries for lines deleted since the previous snapshot. -/
theorem c8_retained_drops_stale (escape : Nat → String) (hashFn : String → Nat → Nat)
    (prev : List (Nat × HighlightedLine)) (snap : TextView) :
    ((highlightPassRetained escape hashFn prev snap).map Prod.fst).all
      (fun k => (seenLines snap).contains k) = true := by
  rw [List.all_eq_true]
  intro k hk
  obtain ⟨p, hp, rfl⟩ := List.mem_map.mp hk
  exact (List.mem_filter.mp hp).2

section Pubsub

variable {α : Type}

/-- Delivery does not change liveness. -/
theorem deliver_alive (v : α) (s : Subscriber α) : (deliver v s).alive = s.alive := by
  unfold deliver
  split <;> rfl

/-- Delivering and then keeping the live subscribers equals delivering to
the live subscribers. -/
theorem filter_map_deliver (v : α) (subs : List (Subscriber α)) :
    (subs.map (deliver v)).filter (fun s => s.alive) =
      (subs.filter (fun s => s.alive)).map (deliver v) := by
  induction subs with
  | nil => rfl
  | cons s rest ih =>
    simp only [List.map_cons, List.filter_cons, deliver_alive]
    cases hs : s.alive <;> simp [hs, ih]

/-- Unfolding equation of `deadIndicesFrom` on a cons cell. -/
theorem deadIndicesFrom_cons (k : Nat) (s : Subscriber α) (rest : List (Subscriber α)) :
    deadIndicesFrom k (s :: rest) =
      if s.alive = true then deadIndicesFrom (k + 1) rest
      else k :: deadIndicesFrom (k + 1) rest := rfl

/-- Unfolding equation of `deadIndicesFrom` on the empty list. -/
theorem deadIndicesFrom_nil (k : Nat) : deadIndicesFrom k ([] : List (Subscriber α)) = [] := rfl

/-- Collected indices start at the running offset. -/
theorem deadIndicesFrom_ge (l : List (Subscriber α)) :
    ∀ (k i : Nat), i ∈ deadIndicesFrom k l → k ≤ i := by
  induction l with
  | nil => intro k i hi; simp [deadIndicesFrom_nil] at hi
  | cons s rest ih =>
    intro k i hi
    rw [deadIndicesFrom_cons] at hi
    by_cases hs : s.alive = true
    · rw [if_pos hs] at hi
      exact Nat.le_of_succ_le (ih (k + 1) i hi)
    · rw [if_neg hs] at hi
      rcases List.mem_cons.mp hi with h | h
      · exact h ▸ le_refl k
      · exact Nat.le_of_succ_le (ih (k + 1) i h)

/-- An index is collected exactly when it points at a dead subscriber. -/
theorem mem_deadIndicesFrom (l : List (Subscriber α)) :
    ∀ (k i : Nat), i ∈ deadIndicesFrom k l ↔
      (k ≤ i ∧ ∃ s, l.get? (i - k) = some s ∧ s.alive = false) := by
  induction l with
  | nil => intro k i; simp [deadIndicesFrom_nil]
  | cons s rest ih =>
    intro k i
    rw [deadIndicesFrom_cons]
    by_cases hs : s.alive = true
    · rw [if_pos hs, ih (k + 1) i]
      constructor
      · rintro ⟨hk1, s', hg, hd⟩
        have h1 : i - k = (i - (k + 1)) + 1 := by omega
        exact ⟨by omega, s', by rw [h1, List.get?_cons_succ]; exact hg, hd⟩
      · rintro ⟨hk, s', hg, hd⟩
        by_cases hik : i = k
        · subst hik
          rw [Nat.sub_self, List.get?_cons_zero] at hg
          injection hg with h
          rw [← h, hs] at hd
          cases hd
        · have h1 : i - k = (i - (k + 1)) + 1 := by omega
          rw [h1, List.get?_cons_succ] at hg
          exact ⟨by omega, s', hg, hd⟩
    · have hs' : s.alive = false := by revert hs; cases s.alive <;> simp
      rw [if_neg hs, List.mem_cons, ih (k + 1) i]
      constructor
      · rintro (rfl | ⟨hk1, s', hg, hd⟩)
        · exact ⟨le_refl i, s, by rw [Nat.sub_self, List.get?_cons_zero], hs'⟩
        · have h1 : i - k = (i - (k + 1)) + 1 := by omega
          exact ⟨by omega, s', by rw [h1, List.get?_cons_succ]; exact hg, hd⟩
      · rintro ⟨hk, s', hg, hd⟩
        by_cases hik : i = k
        · exact Or.inl hik
        · have h1 : i - k = (i - (k + 1)) + 1 := by omega
          rw [h1, List.get?_cons_succ] at hg
          exact Or.inr ⟨by omega, s', hg, hd⟩

/-- The collected indices are strictly increasing. -/
theorem deadIndicesFrom_pairwise (l : List (Subscriber α)) :
    ∀ (k : Nat), (deadIndicesFrom k l).Pairwise (· < ·) := by
  induction l with
  | nil => intro k; simp [deadIndicesFrom_nil]
  | cons s rest ih =>
    intro k
    rw [deadIndicesFrom_cons]
    by_cases hs : s.alive = true
    · rw [if_pos hs]
      exact ih (k + 1)
    · rw [if_neg hs]
      refine List.Pairwise.cons ?_ (ih (k + 1))
      intro i hi
      exact lt_of_lt_of_le (Nat.lt_succ_self k) (deadIndicesFrom_ge rest (k + 1) i hi)

/-- Collected indices of a list with one element appended. -/
theorem deadIndicesFrom_append_singleton (b : Subscriber α) (F : List (Subscriber α)) :
    ∀ (k : Nat), deadIndicesFrom k (F ++ [b]) =
      deadIndicesFrom k F ++ (if b.alive = true then [] else [k + F.length]) := by
  induction F with
  | nil =>
    intro k
    rw [List.nil_append, deadIndicesFrom_cons, deadIndicesFrom_nil, deadIndicesFrom_nil,
      List.nil_append, List.length_nil, Nat.add_zero]
  | cons s F' ih =>
    intro k
    rw [List.cons_append, deadIndicesFrom_cons, deadIndicesFrom_cons, ih (k + 1),
      List.length_cons]
    have heq : k + 1 + F'.length = k + (F'.length + 1) := by omega
    rw [heq]
    by_cases hs : s.alive = true
    · rw [if_pos hs, if_pos hs]
    · rw [if_neg hs, if_neg hs, List.cons_append]

/-- When no index is collected every subscriber is live. -/
theorem deadIndicesFrom_nil_filter (l : List (Subscriber α)) :
    ∀ (k : Nat), deadIndicesFrom k l = [] → l.filter (fun s => s.alive) = l := by
  induction l with
  | nil => intro k _; rfl
  | cons s rest ih =>
    intro k h
    rw [deadIndicesFrom_cons] at h
    by_cases hs : s.alive = true
    · rw [if_pos hs] at h
      simp [List.filter_cons, hs, ih (k + 1) h]
    · rw [if_neg hs] at h
      exact absurd h (List.cons_ne_nil _ _)

/-- Replacing a dead subscriber by a live one removes exactly its index. -/
theorem deadIndicesFrom_set (b : Subscriber α) (hb : b.alive = true)
    (l : List (Subscriber α)) :
    ∀ (k j : Nat) (s : Subscriber α), l.get? j = some s → s.alive = false →
      deadIndicesFrom k (l.set j b) = (deadIndicesFrom k l).erase (k + j) := by
  induction l with
  | nil => intro k j s hg _; simp at hg
  | cons s0 rest ih =>
    intro k j s hg hd
    cases j with
    | zero =>
      rw [List.get?_cons_zero] at hg
      injection hg with hg
      subst hg
      rw [List.set_cons_zero, deadIndicesFrom_cons, if_pos hb,
        deadIndicesFrom_cons, if_neg (by rw [hd]; exact Bool.false_ne_true)]
      simp
    | succ j' =>
      rw [List.set_cons_succ]
      have hg' : rest.get? j' = some s := by rwa [List.get?_cons_succ] at hg
      by_cases hs0 : s0.alive = true
      · rw [deadIndicesFrom_cons, if_pos hs0, deadIndicesFrom_cons, if_pos hs0,
          ih (k + 1) j' s hg' hd]
        congr 1
        omega
      · rw [deadIndicesFrom_cons, if_neg hs0, deadIndicesFrom_cons, if_neg hs0,
          ih (k + 1) j' s hg' hd]
        have harith : k + 1 + j' = k + (j' + 1) := by omega
        rw [harith, List.erase_cons_tail (by simp)]

/-- Replacing a dead subscriber by a live one adds it to the live ones, up
to permutation. -/
theorem filter_set_perm (b : Subscriber α) (hb : b.alive = true)
    (l : List (Subscriber α)) :
    ∀ (j : Nat) (s : Subscriber α), l.get? j = some s → s.alive = false →
      ((l.set j b).filter (fun x => x.alive)).Perm
        (b :: l.filter (fun x => x.alive)) := by
  induction l with
  | nil => intro j s hg _; simp at hg
  | cons s0 rest ih =>
    intro j s hg hd
    cases j with
    | zero =>
      rw [List.get?_cons_zero] at hg
      injection hg with hg
      subst hg
      rw [List.set_cons_zero]
      simp only [List.filter_cons, hb, hd]
      exact List.Perm.refl _
    | succ j' =>
      rw [List.set_cons_succ]
      have hg' : rest.get? j' = some s := by rwa [List.get?_cons_succ] at hg
      have hih := ih j' s hg' hd
      by_cases hs0 : s0.alive = true
      · simp only [List.filter_cons, hs0, if_pos]
        exact (hih.cons s0).trans (List.Perm.swap b s0 _)
      · have hs0' : s0.alive = false := by revert hs0; cases s0.alive <;> simp
        simp only [List.filter_cons, hs0']
        exact hih

/-- `swap_remove` on a list decomposed around its last element. -/
theorem swapRemove_concat (F : List (Subscriber α)) (b : Subscriber α) (j : Nat) :
    swapRemove (F ++ [b]) j = F.set j b := by
  unfold swapRemove
  rw [List.getLast?_concat, List.dropLast_concat]

/-- Folding `swap_remove` over the collected dead indices, largest first,
leaves exactly the live subscribers, up to permutation. -/
theorem pruneAll_perm :
    ∀ (n : Nat) (l : List (Subscriber α)), (deadIndicesFrom 0 l).length = n →
      ((deadIndicesFrom 0 l).reverse.foldl swapRemove l).Perm
        (l.filter (fun s => s.alive)) := by
  intro n
  induction n with
  | zero =>
    intro l hlen
    have hnil : deadIndicesFrom 0 l = [] := List.length_eq_zero.mp hlen
    rw [hnil, deadIndicesFrom_nil_filter l 0 hnil]
    exact List.Perm.refl l
  | succ m ih =>
    intro l hlen
    have hlnil : l ≠ [] := by
      intro h
      subst h
      rw [deadIndicesFrom_nil] at hlen
      cases hlen
    obtain ⟨F, b, rfl⟩ : ∃ F b, l = F ++ [b] := by
      rcases List.eq_nil_or_concat l with h | ⟨F, b, h⟩
      · exact absurd h hlnil
      · exact ⟨F, b, by rw [h, List.concat_eq_append]⟩
    rw [deadIndicesFrom_append_singleton b F 0] at hlen ⊢
    by_cases hb : b.alive = true
    · rw [if_pos hb, List.append_nil] at hlen ⊢
      have hdsnil : deadIndicesFrom 0 F ≠ [] := by
        intro h
        rw [h] at hlen
        cases hlen
      obtain ⟨init, j, hds⟩ : ∃ init j, deadIndicesFrom 0 F = init ++ [j] := by
        rcases List.eq_nil_or_concat (deadIndicesFrom 0 F) with h | ⟨I, x, h⟩
        · exact absurd h hdsnil
        · exact ⟨I, x, by rw [h, List.concat_eq_append]⟩
      have hjmem : j ∈ deadIndicesFrom 0 F := by
        rw [hds]
        simp
      obtain ⟨-, s, hgs, hdead⟩ := (mem_deadIndicesFrom F 0 j).mp hjmem
      rw [Nat.sub_zero] at hgs
      rw [hds, List.reverse_append, List.reverse_singleton, List.singleton_append,
        List.foldl_cons, swapRemove_concat]
      have hpw := deadIndicesFrom_pairwise F 0
      rw [hds] at hpw
      have hjnotinit : j ∉ init := by
        intro hmem
        have := (List.pairwise_append.mp hpw).2.2 j hmem j (by simp)
        omega
      have herase : (deadIndicesFrom 0 F).erase j = init := by
        rw [hds, List.erase_append_right _ hjnotinit, List.erase_cons_head,
          List.append_nil]
      have hset : deadIndicesFrom 0 (F.set j b) = init := by
        rw [deadIndicesFrom_set b hb F 0 j s hgs hdead, Nat.zero_add, herase]
      have hlen'' : (deadIndicesFrom 0 (F.set j b)).length = m := by
        rw [hset]
        rw [hds, List.length_append] at hlen
        simp at hlen
        omega
      have hmain := ih (F.set j b) hlen''
      rw [hset] at hmain
      refine hmain.trans ?_
      refine (filter_set_perm b hb F j s hgs hdead).trans ?_
      rw [List.filter_append]
      simp only [List.filter_cons, hb, List.filter_nil, if_pos]
      exact (List.perm_append_singleton b _).symm
    · rw [if_neg hb, Nat.zero_add] at hlen ⊢
      rw [List.reverse_append, List.reverse_singleton, List.singleton_append,
        List.foldl_cons]
      have hsw : swapRemove (F ++ [b]) F.length = F := by
        rw [swapRemove_concat, List.set_eq_of_length_le (le_refl _)]
      rw [hsw]
      have hlenF : (deadIndicesFrom 0 F).length = m := by
        rw [List.length_append] at hlen
        simp at hlen
        omega
      have hb' : b.alive = false := by revert hb; cases b.alive <;> simp
      have hfilter : (F ++ [b]).filter (fun s => s.alive) =
          F.filter (fun s => s.alive) := by
        rw [List.filter_append]
        simp [hb']
      rw [hfilter]
      exact ih F hlenF

/-- C9: one publish on a topic delivers the value to every live subscriber,
prunes exactly the subscriptions whose receiver has been dropped (the
surviving senders are a permutation of the delivered-to live ones), and
returns the soft boolean signal that is `true` exactly when at least one
subscriber remained — returning it, never raising a failure. -/
theorem c9_publish_prunes_and_reports (subs : List (Subscriber α)) (v : α) :
    ((hubSend subs v).1).Perm ((subs.filter (fun s => s.alive)).map (deliver v)) ∧
    ((hubSend subs v).2 = true ↔ subs.filter (fun s => s.alive) ≠ []) := by
  have hperm : ((hubSend subs v).1).Perm
      ((subs.map (deliver v)).filter (fun s => s.alive)) :=
    pruneAll_perm (deadIndicesFrom 0 (subs.map (deliver v))).length
      (subs.map (deliver v)) rfl
  rw [filter_map_deliver] at hperm
  refine ⟨hperm, ?_⟩
  have hlen : (hubSend subs v).1.length =
      ((subs.filter (fun s => s.alive)).map (deliver v)).length := hperm.length_eq
  rw [List.length_map] at hlen
  have h2 : (hubSend subs v).2 = decide (0 < (hubSend subs v).1.length) := rfl
  rw [h2, decide_eq_true_iff, hlen, List.length_pos]

end Pubsub

end Jete
